import Mathlib

/-!
Verification development for the `nifti-processing-rs` resampling engine.

The coordinate type `T` (a `RealField` in the source) is embedded as `ℚ`, so
all arithmetic is exact and computable.  The element type `U` stays generic;
the `as` cast from the coordinate type to `U` (`AsPrimitive<T> for U`) is
passed in as an explicit function `castTU : ℚ → U`.

Machine casts from the source:
  * `T -> usize` (`x.as_()` on a float): truncation toward zero, saturating
    at 0 for negative inputs — embedded as `ratAsNat`.
  * `usize -> T`: exact (`Nat.cast`).

Matrices (`nalgebra::Matrix4<T>`, `Matrix3<T>`, `Vector3<T>`) are embedded
as explicit structures of rationals, with `try_inverse` embedded by the
determinant test and adjugate formula (`tryInverse4`), matching nalgebra's
cofactor-based 4x4 inverse which returns `None` exactly when the computed
determinant is zero.

`ndarray::Array<U, IxDyn>` is embedded as `ArrayD` (dynamic shape, row-major
data list) and, once sanitized to rank 3, as `Vol3`.
-/

namespace NP

/-- Rust `as` cast from the rational coordinate type to `usize`:
truncation toward zero with saturation at 0 (negative values map to 0). -/
def ratAsNat (q : ℚ) : ℕ := ⌊q⌋.toNat

/-- Rust `as` cast from the rational coordinate type to `i32`/`i64`:
truncation toward zero. -/
def ratAsInt (q : ℚ) : ℤ := if q < 0 then ⌈q⌉ else ⌊q⌋

/-- Embedding of `nalgebra::Vector3<T>` (and of one row of `MatrixXx3<T>`). -/
structure Vec3 where
  x : ℚ
  y : ℚ
  z : ℚ
  deriving DecidableEq, Repr

/-- Embedding of `nalgebra::Matrix3<T>`. -/
structure Mat3 where
  a00 : ℚ
  a01 : ℚ
  a02 : ℚ
  a10 : ℚ
  a11 : ℚ
  a12 : ℚ
  a20 : ℚ
  a21 : ℚ
  a22 : ℚ
  deriving DecidableEq, Repr

/-- Embedding of `nalgebra::Matrix4<T>`. -/
@[ext]
structure Mat4 where
  m00 : ℚ
  m01 : ℚ
  m02 : ℚ
  m03 : ℚ
  m10 : ℚ
  m11 : ℚ
  m12 : ℚ
  m13 : ℚ
  m20 : ℚ
  m21 : ℚ
  m22 : ℚ
  m23 : ℚ
  m30 : ℚ
  m31 : ℚ
  m32 : ℚ
  m33 : ℚ
  deriving DecidableEq, Repr

/-- The 4x4 identity matrix. -/
def id4 : Mat4 := ⟨1,0,0,0, 0,1,0,0, 0,0,1,0, 0,0,0,1⟩

/-- 4x4 matrix product. -/
def mul4 (a b : Mat4) : Mat4 :=
  ⟨a.m00*b.m00 + a.m01*b.m10 + a.m02*b.m20 + a.m03*b.m30,
   a.m00*b.m01 + a.m01*b.m11 + a.m02*b.m21 + a.m03*b.m31,
   a.m00*b.m02 + a.m01*b.m12 + a.m02*b.m22 + a.m03*b.m32,
   a.m00*b.m03 + a.m01*b.m13 + a.m02*b.m23 + a.m03*b.m33,
   a.m10*b.m00 + a.m11*b.m10 + a.m12*b.m20 + a.m13*b.m30,
   a.m10*b.m01 + a.m11*b.m11 + a.m12*b.m21 + a.m13*b.m31,
   a.m10*b.m02 + a.m11*b.m12 + a.m12*b.m22 + a.m13*b.m32,
   a.m10*b.m03 + a.m11*b.m13 + a.m12*b.m23 + a.m13*b.m33,
   a.m20*b.m00 + a.m21*b.m10 + a.m22*b.m20 + a.m23*b.m30,
   a.m20*b.m01 + a.m21*b.m11 + a.m22*b.m21 + a.m23*b.m31,
   a.m20*b.m02 + a.m21*b.m12 + a.m22*b.m22 + a.m23*b.m32,
   a.m20*b.m03 + a.m21*b.m13 + a.m22*b.m23 + a.m23*b.m33,
   a.m30*b.m00 + a.m31*b.m10 + a.m32*b.m20 + a.m33*b.m30,
   a.m30*b.m01 + a.m31*b.m11 + a.m32*b.m21 + a.m33*b.m31,
   a.m30*b.m02 + a.m31*b.m12 + a.m32*b.m22 + a.m33*b.m32,
   a.m30*b.m03 + a.m31*b.m13 + a.m32*b.m23 + a.m33*b.m33⟩

/-- Scalar multiple of a 4x4 matrix. -/
def smul4 (c : ℚ) (m : Mat4) : Mat4 :=
  ⟨c*m.m00, c*m.m01, c*m.m02, c*m.m03,
   c*m.m10, c*m.m11, c*m.m12, c*m.m13,
   c*m.m20, c*m.m21, c*m.m22, c*m.m23,
   c*m.m30, c*m.m31, c*m.m32, c*m.m33⟩

/-- Determinant of a 3x3 matrix given by its nine entries. -/
def det3 (a b c d e f g h i : ℚ) : ℚ :=
  a*(e*i - f*h) - b*(d*i - f*g) + c*(d*h - e*g)

/-- Determinant of a 4x4 matrix (cofactor expansion along the first row). -/
def det4 (m : Mat4) : ℚ :=
    m.m00 * det3 m.m11 m.m12 m.m13 m.m21 m.m22 m.m23 m.m31 m.m32 m.m33
  - m.m01 * det3 m.m10 m.m12 m.m13 m.m20 m.m22 m.m23 m.m30 m.m32 m.m33
  + m.m02 * det3 m.m10 m.m11 m.m13 m.m20 m.m21 m.m23 m.m30 m.m31 m.m33
  - m.m03 * det3 m.m10 m.m11 m.m12 m.m20 m.m21 m.m22 m.m30 m.m31 m.m32

/-- Adjugate (transposed cofactor matrix) of a 4x4 matrix. -/
def adj4 (m : Mat4) : Mat4 :=
  ⟨  det3 m.m11 m.m12 m.m13 m.m21 m.m22 m.m23 m.m31 m.m32 m.m33,
   - det3 m.m01 m.m02 m.m03 m.m21 m.m22 m.m23 m.m31 m.m32 m.m33,
     det3 m.m01 m.m02 m.m03 m.m11 m.m12 m.m13 m.m31 m.m32 m.m33,
   - det3 m.m01 m.m02 m.m03 m.m11 m.m12 m.m13 m.m21 m.m22 m.m23,
   - det3 m.m10 m.m12 m.m13 m.m20 m.m22 m.m23 m.m30 m.m32 m.m33,
     det3 m.m00 m.m02 m.m03 m.m20 m.m22 m.m23 m.m30 m.m32 m.m33,
   - det3 m.m00 m.m02 m.m03 m.m10 m.m12 m.m13 m.m30 m.m32 m.m33,
     det3 m.m00 m.m02 m.m03 m.m10 m.m12 m.m13 m.m20 m.m22 m.m23,
     det3 m.m10 m.m11 m.m13 m.m20 m.m21 m.m23 m.m30 m.m31 m.m33,
   - det3 m.m00 m.m01 m.m03 m.m20 m.m21 m.m23 m.m30 m.m31 m.m33,
     det3 m.m00 m.m01 m.m03 m.m10 m.m11 m.m13 m.m30 m.m31 m.m33,
   - det3 m.m00 m.m01 m.m03 m.m10 m.m11 m.m13 m.m20 m.m21 m.m23,
   - det3 m.m10 m.m11 m.m12 m.m20 m.m21 m.m22 m.m30 m.m31 m.m32,
     det3 m.m00 m.m01 m.m02 m.m20 m.m21 m.m22 m.m30 m.m31 m.m32,
   - det3 m.m00 m.m01 m.m02 m.m10 m.m11 m.m12 m.m30 m.m31 m.m32,
     det3 m.m00 m.m01 m.m02 m.m10 m.m11 m.m12 m.m20 m.m21 m.m22⟩

/-- The mathematical inverse of a 4x4 matrix (valid when `det4 m ≠ 0`). -/
def inv4 (m : Mat4) : Mat4 := smul4 (det4 m)⁻¹ (adj4 m)

/-- Embedding of nalgebra's `Matrix4::try_inverse`: `None` exactly when the
determinant is zero, otherwise the adjugate-based inverse. -/
def tryInverse4 (m : Mat4) : Option Mat4 :=
  if det4 m = 0 then none else some (inv4 m)

/-- Embedding of `afftra_to_aff_tra` (src/lib.rs): split a 4x4 homogeneous
affine into its top-left 3x3 linear part and its translation column. -/
def afftra_to_aff_tra (affine : Mat4) : Mat3 × Vec3 :=
  (⟨affine.m00, affine.m01, affine.m02,
    affine.m10, affine.m11, affine.m12,
    affine.m20, affine.m21, affine.m22⟩,
   ⟨affine.m03, affine.m13, affine.m23⟩)

/-- Embedding of `aff_tra_to_afftra` (src/lib.rs): assemble a 4x4 affine from
a 3x3 linear part and a translation, with bottom row `[0,0,0,1]`. -/
def aff_tra_to_afftra (aff : Mat3) (tra : Vec3) : Mat4 :=
  ⟨aff.a00, aff.a01, aff.a02, tra.x,
   aff.a10, aff.a11, aff.a12, tra.y,
   aff.a20, aff.a21, aff.a22, tra.z,
   0, 0, 0, 1⟩

/-- Embedding of `apply_affine` (src/lib.rs): apply `linear · p + translation`
to every point.  The source computes `pts * aff.transpose()` and then adds the
translation to every row, which is exactly this per-point map. -/
def apply_affine (affine : Mat4) (pts : List Vec3) : List Vec3 :=
  let at4 := afftra_to_aff_tra affine
  let aff := at4.1
  let tra := at4.2
  pts.map (fun p =>
    ⟨aff.a00*p.x + aff.a01*p.y + aff.a02*p.z + tra.x,
     aff.a10*p.x + aff.a11*p.y + aff.a12*p.z + tra.y,
     aff.a20*p.x + aff.a21*p.y + aff.a22*p.z + tra.z⟩)

/-- Embedding of `get_corners` (src/lib.rs): the eight rows of the corner
matrix, in source order.  Subtraction is `ℕ` subtraction (`usize` in the
source, where `dim - 1` underflows and panics for a zero extent; the
truncated value stands in for that invalid case). -/
def get_corners (in_shape : ℕ × ℕ × ℕ) : List (ℕ × ℕ × ℕ) :=
  [(0, 0, 0),
   (0, 0, in_shape.2.2 - 1),
   (0, in_shape.2.1 - 1, 0),
   (0, in_shape.2.1 - 1, in_shape.2.2 - 1),
   (in_shape.1 - 1, 0, 0),
   (in_shape.1 - 1, 0, in_shape.2.2 - 1),
   (in_shape.1 - 1, in_shape.2.1 - 1, 0),
   (in_shape.1 - 1, in_shape.2.1 - 1, in_shape.2.2 - 1)]

/-- Minimum of a column of values (nalgebra's `.min()`; the column is never
empty in the source, so the `[]` case is arbitrary). -/
def colMin : List ℚ → ℚ
  | [] => 0
  | q :: t => t.foldl min q

/-- Maximum of a column of values (nalgebra's `.max()`). -/
def colMax : List ℚ → ℚ
  | [] => 0
  | q :: t => t.foldl max q

/-- Embedding of `vox2out_vox` (src/lib.rs): derive the axis-aligned output
grid.  Note the source performs no validation whatsoever: it returns a plain
pair, with the float→usize `as` cast (`ratAsNat`) applied to each inferred
extent. -/
def vox2out_vox (in_shape : ℕ × ℕ × ℕ) (in_affine : Mat4) (voxel_sizes : Vec3) :
    (ℕ × ℕ × ℕ) × Mat4 :=
  let in_corners : List Vec3 :=
    (get_corners in_shape).map (fun c => ⟨(c.1 : ℚ), (c.2.1 : ℚ), (c.2.2 : ℚ)⟩)
  let out_corners := apply_affine in_affine in_corners
  let out_mn : Vec3 :=
    ⟨colMin (out_corners.map Vec3.x), colMin (out_corners.map Vec3.y),
     colMin (out_corners.map Vec3.z)⟩
  let out_mx : Vec3 :=
    ⟨colMax (out_corners.map Vec3.x), colMax (out_corners.map Vec3.y),
     colMax (out_corners.map Vec3.z)⟩
  let out_shape : ℕ × ℕ × ℕ :=
    (ratAsNat ((⌈(out_mx.x - out_mn.x) / voxel_sizes.x⌉ : ℤ) + 1),
     ratAsNat ((⌈(out_mx.y - out_mn.y) / voxel_sizes.y⌉ : ℤ) + 1),
     ratAsNat ((⌈(out_mx.z - out_mn.z) / voxel_sizes.z⌉ : ℤ) + 1))
  let out_aff : Mat3 :=
    ⟨voxel_sizes.x, 0, 0, 0, voxel_sizes.y, 0, 0, 0, voxel_sizes.z⟩
  (out_shape, aff_tra_to_afftra out_aff out_mn)

/-- Embedding of `ndarray::Array<U, IxDyn>`: a dynamic-rank dense array with
row-major (C-order) data. -/
structure ArrayD (U : Type) where
  shape : List ℕ
  data : List U
  deriving DecidableEq, Repr

/-- A rank-3 dense array with row-major data, the shape every sampler works
on (`in_shape[0..3]` in the source). -/
structure Vol3 (U : Type) where
  s0 : ℕ
  s1 : ℕ
  s2 : ℕ
  data : List U
  deriving DecidableEq, Repr

/-- Embedding of `ndarray`'s checked `im.get([x, y, z])` on a rank-3 array:
`none` when an index is out of bounds on its axis, otherwise the row-major
element. -/
def Vol3.getIdx {U : Type} (im : Vol3 U) (i j k : ℕ) : Option U :=
  if i < im.s0 ∧ j < im.s1 ∧ k < im.s2 then
    im.data[(i * im.s1 + j) * im.s2 + k]?
  else none

/-- Embedding of `SamplingMode` (src/sampler/common.rs). -/
inductive SamplingMode where
  | Constant : SamplingMode
  | Nearest : SamplingMode
  deriving DecidableEq, Repr

/-- The mutable configuration of a sampler (its `mode` and `cval` fields). -/
structure SamplerCfg (U : Type) where
  mode : SamplingMode
  cval : U
  deriving DecidableEq, Repr

/-- Embedding of `ReSample::get_val` (src/sampler/traits.rs) at its call
sites: both samplers call it with already-cast `usize` indices, so the
`ax < 0` guard is vacuous and the result is the checked lookup with the
fill value as fallback. -/
def get_val {U : Type} (cfg : SamplerCfg U) (im : Vol3 U) (i j k : ℕ) : U :=
  (im.getIdx i j k).getD cfg.cval

/-- Embedding of nalgebra's `clamp(x, lo, hi)`. -/
def clampQ (x lo hi : ℚ) : ℚ := if x < lo then lo else if x > hi then hi else x

/-- Per-point clamp used by `apply_sampling_mode` under `Nearest`:
each axis is clamped into `[0, dim - 1]` of the input volume. -/
def clampPt {U : Type} (im : Vol3 U) (p : Vec3) : Vec3 :=
  ⟨clampQ p.x 0 ((im.s0 - 1 : ℕ) : ℚ),
   clampQ p.y 0 ((im.s1 - 1 : ℕ) : ℚ),
   clampQ p.z 0 ((im.s2 - 1 : ℕ) : ℚ)⟩

/-- Embedding of `ReSample::apply_sampling_mode` (src/sampler/traits.rs):
under `Constant` the coordinate matrix is left untouched; under `Nearest`
every column is clamped into `[0, dim - 1]` in place. -/
def apply_sampling_mode {U : Type} (cfg : SamplerCfg U) (im : Vol3 U)
    (in_coords : List Vec3) : List Vec3 :=
  match cfg.mode with
  | .Constant => in_coords
  | .Nearest => in_coords.map (clampPt im)

/-- Per-coordinate body of `NearestNeighbor::sample`
(src/sampler/nearest_neighbor.rs, loop at lines 73-88), applied to a
coordinate that `apply_sampling_mode` has already processed.  Note the
bounds check is performed on the CEILED coordinate (the matrix is ceiled
wholesale at line 64 before the loop reads it), and the upper bound is the
full dimension, not `dim - 1`. -/
def nearestNeighborVal {U : Type} (cfg : SamplerCfg U) (im : Vol3 U) (p : Vec3) : U :=
  let cx : ℚ := (⌈p.x⌉ : ℚ)
  let cy : ℚ := (⌈p.y⌉ : ℚ)
  let cz : ℚ := (⌈p.z⌉ : ℚ)
  if cx < 0 ∨ cy < 0 ∨ cz < 0 ∨
     cx > (im.s0 : ℚ) ∨ cy > (im.s1 : ℚ) ∨ cz > (im.s2 : ℚ) then
    cfg.cval
  else
    get_val cfg im (ratAsNat cx) (ratAsNat cy) (ratAsNat cz)

/-- The eight trilinear corner weights of a coordinate, in source order
`(wa, wb, wc, wd, we, wf, wg, wh)` (src/sampler/trilinear.rs lines 125-132),
before the cast to the element type.  `x0 = floor x`, `x1 = x0 + 1`. -/
def triWeights (p : Vec3) : ℚ × ℚ × ℚ × ℚ × ℚ × ℚ × ℚ × ℚ :=
  let x0 : ℚ := (⌊p.x⌋ : ℚ)
  let y0 : ℚ := (⌊p.y⌋ : ℚ)
  let z0 : ℚ := (⌊p.z⌋ : ℚ)
  let x1 : ℚ := x0 + 1
  let y1 : ℚ := y0 + 1
  let z1 : ℚ := z0 + 1
  ((x1 - p.x) * (y1 - p.y) * (z1 - p.z),
   (x1 - p.x) * (y1 - p.y) * (p.z - z0),
   (x1 - p.x) * (p.y - y0) * (z1 - p.z),
   (x1 - p.x) * (p.y - y0) * (p.z - z0),
   (p.x - x0) * (y1 - p.y) * (z1 - p.z),
   (p.x - x0) * (y1 - p.y) * (p.z - z0),
   (p.x - x0) * (p.y - y0) * (z1 - p.z),
   (p.x - x0) * (p.y - y0) * (p.z - z0))

/-- Per-coordinate body of `TriLinear::sample` (src/sampler/trilinear.rs,
loop at lines 81-137), applied to a coordinate that `apply_sampling_mode`
has already processed.  Each of the eight weights is cast to the element
type `U` individually (`castTU`), and the weighted sum is accumulated in
`U`, exactly as in the source. -/
def triLinearVal {U : Type} [CommRing U] (castTU : ℚ → U)
    (cfg : SamplerCfg U) (im : Vol3 U) (p : Vec3) : U :=
  if p.x < 0 ∨ p.y < 0 ∨ p.z < 0 ∨
     p.x > (im.s0 : ℚ) ∨ p.y > (im.s1 : ℚ) ∨ p.z > (im.s2 : ℚ) then
    cfg.cval
  else
    let x0 : ℚ := (⌊p.x⌋ : ℚ)
    let y0 : ℚ := (⌊p.y⌋ : ℚ)
    let z0 : ℚ := (⌊p.z⌋ : ℚ)
    let x1 : ℚ := x0 + 1
    let y1 : ℚ := y0 + 1
    let z1 : ℚ := z0 + 1
    let va := get_val cfg im (ratAsNat x0) (ratAsNat y0) (ratAsNat z0)
    let vb := get_val cfg im (ratAsNat x0) (ratAsNat y0) (ratAsNat z1)
    let vc := get_val cfg im (ratAsNat x0) (ratAsNat y1) (ratAsNat z0)
    let vd := get_val cfg im (ratAsNat x0) (ratAsNat y1) (ratAsNat z1)
    let ve := get_val cfg im (ratAsNat x1) (ratAsNat y0) (ratAsNat z0)
    let vf := get_val cfg im (ratAsNat x1) (ratAsNat y0) (ratAsNat z1)
    let vg := get_val cfg im (ratAsNat x1) (ratAsNat y1) (ratAsNat z0)
    let vh := get_val cfg im (ratAsNat x1) (ratAsNat y1) (ratAsNat z1)
    let w := triWeights p
    castTU w.1 * va + castTU w.2.1 * vb + castTU w.2.2.1 * vc +
      castTU w.2.2.2.1 * vd + castTU w.2.2.2.2.1 * ve +
      castTU w.2.2.2.2.2.1 * vf + castTU w.2.2.2.2.2.2.1 * vg +
      castTU w.2.2.2.2.2.2.2 * vh

/-- The reshape error string of both samplers (`Array::from_shape_vec`
failure). -/
def shapeErr : String := "number of elements is not compatible with out_shape shape"

/-- Embedding of `NearestNeighbor::sample`.  The first component of the
result is the final state of the `&mut` coordinate matrix (the in-place
clamp of `apply_sampling_mode`; the ceiled matrix is a fresh local and is
not written back).  The second is the returned `Result`: the value list
reshaped to `out_shape`, or the reshape error when the element count does
not match. -/
def nearestNeighborSample {U : Type} (cfg : SamplerCfg U) (im : Vol3 U)
    (in_coords : List Vec3) (out_shape : ℕ × ℕ × ℕ) :
    List Vec3 × Except String (Vol3 U) :=
  let coords := apply_sampling_mode cfg im in_coords
  let values := coords.map (nearestNeighborVal cfg im)
  (coords,
   if values.length = out_shape.1 * out_shape.2.1 * out_shape.2.2 then
     .ok ⟨out_shape.1, out_shape.2.1, out_shape.2.2, values⟩
   else .error shapeErr)

/-- Embedding of `TriLinear::sample`, with the same conventions as
`nearestNeighborSample`. -/
def triLinearSample {U : Type} [CommRing U] (castTU : ℚ → U)
    (cfg : SamplerCfg U) (im : Vol3 U)
    (in_coords : List Vec3) (out_shape : ℕ × ℕ × ℕ) :
    List Vec3 × Except String (Vol3 U) :=
  let coords := apply_sampling_mode cfg im in_coords
  let values := coords.map (triLinearVal castTU cfg im)
  (coords,
   if values.length = out_shape.1 * out_shape.2.1 * out_shape.2.2 then
     .ok ⟨out_shape.1, out_shape.2.1, out_shape.2.2, values⟩
   else .error shapeErr)

/-- The closed set of sampler variants behind the `ReSample` capability. -/
inductive SamplerV (U : Type) where
  | nearestNeighbor : SamplerCfg U → SamplerV U
  | triLinear : SamplerCfg U → SamplerV U

/-- The configuration snapshot of a sampler variant. -/
def SamplerV.cfg {U : Type} : SamplerV U → SamplerCfg U
  | .nearestNeighbor c => c
  | .triLinear c => c

/-- Dispatch `sample` over the sampler variants. -/
def SamplerV.sample {U : Type} [CommRing U] (castTU : ℚ → U) :
    SamplerV U → Vol3 U → List Vec3 → ℕ × ℕ × ℕ →
    List Vec3 × Except String (Vol3 U)
  | .nearestNeighbor c => nearestNeighborSample c
  | .triLinear c => triLinearSample castTU c

/-- Raster enumeration of all voxel indices of a shape, outer axis slowest
(the order of `itertools`' `multi_cartesian_product` over
`(0..s0, 0..s1, 0..s2)` in `resample_from_to`). -/
def enum3 (s0 s1 s2 : ℕ) : List (ℕ × ℕ × ℕ) :=
  (List.range s0).flatMap (fun i =>
    (List.range s1).flatMap (fun j =>
      (List.range s2).map (fun k => (i, j, k))))

/-- The full output coordinate lattice of `resample_from_to`, as rational
points. -/
def enum3Coords (out_shape : ℕ × ℕ × ℕ) : List Vec3 :=
  (enum3 out_shape.1 out_shape.2.1 out_shape.2.2).map
    (fun t => ⟨(t.1 : ℚ), (t.2.1 : ℚ), (t.2.2 : ℚ)⟩)

/-- The singular-affine error string of `resample_from_to`. -/
def singularErr : String := "no valid matrix inverse found for in_affine"

/-- Embedding of `resample_from_to` (src/lib.rs lines 178-214). -/
def resample_from_to {U : Type} [CommRing U] (castTU : ℚ → U)
    (in_im : Vol3 U) (in_affine : Mat4) (out_shape : ℕ × ℕ × ℕ)
    (out_affine : Mat4) (sampler : SamplerV U) : Except String (Vol3 U) :=
  match tryInverse4 in_affine with
  | none => .error singularErr
  | some inv_in_affine =>
    let compound_affine := mul4 inv_in_affine out_affine
    let in_coords := enum3Coords out_shape
    let out_coords := apply_affine compound_affine in_coords
    (sampler.sample castTU in_im out_coords out_shape).2

/-- Embedding of `sanitize_im_shape` (src/lib.rs lines 130-144): rank 2
gains a trailing singleton axis (row-major data is unchanged by that
reshape), rank 3 passes through, anything else is the shape error. -/
def sanitize_im_shape {U : Type} (in_im : ArrayD U) : Except String (Vol3 U) :=
  match in_im.shape with
  | [a, b] => .ok ⟨a, b, 1, in_im.data⟩
  | [a, b, c] => .ok ⟨a, b, c, in_im.data⟩
  | _ => .error "invalid shape"

/-- Embedding of `resample_to_output` (src/lib.rs lines 148-174). -/
def resample_to_output {U : Type} [CommRing U] (castTU : ℚ → U)
    (in_im : ArrayD U) (in_affine : Mat4) (voxel_sizes : Vec3)
    (sampler : SamplerV U) : Except String (Vol3 U × Mat4) :=
  match sanitize_im_shape in_im with
  | .error e => .error e
  | .ok im =>
    let vo := vox2out_vox (im.s0, im.s1, im.s2) in_affine voxel_sizes
    match resample_from_to castTU im in_affine vo.1 vo.2 sampler with
    | .ok out_im => .ok (out_im, vo.2)
    | .error e => .error e

/-! ## Supporting lemmas -/

/-- Left adjugate identity: `adj(m) · m = det(m) · I`. -/
theorem adj4_mul (m : Mat4) : mul4 (adj4 m) m = smul4 (det4 m) id4 := by
  ext <;> simp [mul4, adj4, smul4, id4, det4, det3] <;> ring

/-- Right adjugate identity: `m · adj(m) = det(m) · I`. -/
theorem mul_adj4 (m : Mat4) : mul4 m (adj4 m) = smul4 (det4 m) id4 := by
  ext <;> simp [mul4, adj4, smul4, id4, det4, det3] <;> ring

/-- Scalars slide out of the first factor of a product. -/
theorem mul4_smul4_left (c : ℚ) (a b : Mat4) :
    mul4 (smul4 c a) b = smul4 c (mul4 a b) := by
  ext <;> simp [mul4, smul4] <;> ring

/-- Scalars slide out of the second factor of a product. -/
theorem mul4_smul4_right (c : ℚ) (a b : Mat4) :
    mul4 a (smul4 c b) = smul4 c (mul4 a b) := by
  ext <;> simp [mul4, smul4] <;> ring

/-- Composition of scalar multiples. -/
theorem smul4_smul4 (c d : ℚ) (m : Mat4) : smul4 c (smul4 d m) = smul4 (c * d) m := by
  ext <;> simp [smul4] <;> ring

/-- Scaling by one is the identity. -/
theorem smul4_one (m : Mat4) : smul4 1 m = m := by
  ext <;> simp [smul4]

/-- For an invertible matrix, `inv4` is a left inverse. -/
theorem inv4_mul (m : Mat4) (h : det4 m ≠ 0) : mul4 (inv4 m) m = id4 := by
  rw [inv4, mul4_smul4_left, adj4_mul, smul4_smul4, inv_mul_cancel₀ h, smul4_one]

/-- For an invertible matrix, `inv4` is a right inverse. -/
theorem mul_inv4 (m : Mat4) (h : det4 m ≠ 0) : mul4 m (inv4 m) = id4 := by
  rw [inv4, mul4_smul4_right, mul_adj4, smul4_smul4, inv_mul_cancel₀ h, smul4_one]

/-- Applying the identity affine moves no point. -/
theorem apply_affine_id4 (pts : List Vec3) : apply_affine id4 pts = pts := by
  unfold apply_affine afftra_to_aff_tra id4
  simp only []
  have : ∀ p : Vec3,
      (⟨1 * p.x + 0 * p.y + 0 * p.z + 0,
        0 * p.x + 1 * p.y + 0 * p.z + 0,
        0 * p.x + 0 * p.y + 1 * p.z + 0⟩ : Vec3) = p := by
    intro p; cases p; simp
  simp [this]

/-- The row-major flattening of the raster enumeration of `(0..a, 0..b)`. -/
theorem range_mul_flat (a b : ℕ) :
    (List.range a).flatMap (fun i => (List.range b).map (fun j => i * b + j)) =
      List.range (a * b) := by
  induction a with
  | zero => simp
  | succ n ih =>
    rw [List.range_succ, List.flatMap_append, ih, Nat.succ_mul, List.range_add]
    simp

/-- Flattening `enum3` by the row-major index formula yields `range`. -/
theorem enum3_map_flat (s0 s1 s2 : ℕ) :
    (enum3 s0 s1 s2).map (fun t => (t.1 * s1 + t.2.1) * s2 + t.2.2) =
      List.range (s0 * s1 * s2) := by
  unfold enum3
  rw [List.map_flatMap]
  have inner : ∀ i : ℕ,
      ((List.range s1).flatMap (fun j => (List.range s2).map (fun k => (i, j, k)))).map
          (fun t : ℕ × ℕ × ℕ => (t.1 * s1 + t.2.1) * s2 + t.2.2) =
        (List.range (s1 * s2)).map (fun n => i * (s1 * s2) + n) := by
    intro i
    rw [List.map_flatMap, ← range_mul_flat s1 s2, List.map_flatMap]
    refine List.flatMap_congr ?_
    intro j _
    rw [List.map_map, List.map_map]
    refine List.map_congr_left ?_
    intro k _
    simp only [Function.comp]
    ring
  calc ((List.range s0).flatMap fun i =>
        ((List.range s1).flatMap fun j => (List.range s2).map fun k => (i, j, k)).map
          (fun t : ℕ × ℕ × ℕ => (t.1 * s1 + t.2.1) * s2 + t.2.2))
      = (List.range s0).flatMap
          (fun i => (List.range (s1 * s2)).map (fun n => i * (s1 * s2) + n)) := by
        exact List.flatMap_congr (fun i _ => inner i)
    _ = List.range (s0 * (s1 * s2)) := range_mul_flat s0 (s1 * s2)
    _ = List.range (s0 * s1 * s2) := by rw [Nat.mul_assoc]

/-- Length of the raster enumeration. -/
theorem enum3_length (s0 s1 s2 : ℕ) : (enum3 s0 s1 s2).length = s0 * s1 * s2 := by
  have h := congrArg List.length (enum3_map_flat s0 s1 s2)
  simpa using h

/-- Membership in the raster enumeration. -/
theorem mem_enum3 {s0 s1 s2 : ℕ} {t : ℕ × ℕ × ℕ} :
    t ∈ enum3 s0 s1 s2 ↔ t.1 < s0 ∧ t.2.1 < s1 ∧ t.2.2 < s2 := by
  obtain ⟨i, j, k⟩ := t
  simp [enum3, List.mem_flatMap, List.mem_map, List.mem_range]
  constructor
  · rintro ⟨a, ha, b, hb, c, hc, h1, h2, h3⟩
    subst h1; subst h2; subst h3; exact ⟨ha, hb, hc⟩
  · rintro ⟨hi, hj, hk⟩
    exact ⟨i, hi, j, hj, k, hk, rfl, rfl, rfl⟩

/-- Reading every position of a list back in order reproduces the list. -/
theorem map_getD_range {α : Type} (l : List α) (d : α) :
    (List.range l.length).map (fun n => (l[n]?).getD d) = l := by
  apply List.ext_getElem
  · simp
  · intro i h1 h2
    simp only [List.getElem_map, List.getElem_range]
    rw [List.getElem?_eq_getElem h2]
    rfl

/-- The row-major index of an in-bounds triple is in bounds. -/
theorem flat_lt {i j k s0 s1 s2 : ℕ} (hi : i < s0) (hj : j < s1) (hk : k < s2) :
    (i * s1 + j) * s2 + k < s0 * s1 * s2 := by
  calc (i * s1 + j) * s2 + k < (i * s1 + j) * s2 + s2 := by omega
    _ = (i * s1 + j + 1) * s2 := by ring
    _ ≤ (s0 * s1) * s2 := Nat.mul_le_mul_right s2 (by nlinarith)

/-- An in-bounds checked lookup is the row-major element. -/
theorem getIdx_in {U : Type} (im : Vol3 U) {i j k : ℕ}
    (hi : i < im.s0) (hj : j < im.s1) (hk : k < im.s2) :
    im.getIdx i j k = im.data[(i * im.s1 + j) * im.s2 + k]? := by
  simp [Vol3.getIdx, hi, hj, hk]

/-- A lookup with an axis index at or beyond its bound misses. -/
theorem getIdx_oob {U : Type} (im : Vol3 U) {i j k : ℕ}
    (h : im.s0 ≤ i ∨ im.s1 ≤ j ∨ im.s2 ≤ k) :
    im.getIdx i j k = none := by
  simp only [Vol3.getIdx, ite_eq_right_iff]
  intro hc
  omega

/-- A clamped value stays inside the clamp interval. -/
theorem clampQ_mem {x lo hi : ℚ} (h : lo ≤ hi) :
    lo ≤ clampQ x lo hi ∧ clampQ x lo hi ≤ hi := by
  unfold clampQ
  split
  · exact ⟨le_refl lo, h⟩
  · split
    · exact ⟨h, le_refl hi⟩
    · constructor <;> linarith

/-- Clamping fixes points already inside the interval. -/
theorem clampQ_eq_self {x lo hi : ℚ} (h1 : lo ≤ x) (h2 : x ≤ hi) :
    clampQ x lo hi = x := by
  unfold clampQ
  split
  · linarith
  · split
    · linarith
    · rfl

/-- The float-to-usize cast is the identity on natural literals. -/
theorem ratAsNat_natCast (n : ℕ) : ratAsNat (n : ℚ) = n := by
  simp [ratAsNat]

/-- Applying the sampling mode never changes the number of coordinates. -/
theorem apply_sampling_mode_length {U : Type} (cfg : SamplerCfg U) (im : Vol3 U)
    (coords : List Vec3) :
    (apply_sampling_mode cfg im coords).length = coords.length := by
  cases h : cfg.mode <;> simp [apply_sampling_mode, h]

/-! ## Claims -/

/-- C9 (counterexample): at shape `(1,1,1)` every extent is `≥ 1`, yet
`get_corners` returns the single degenerate combination `(0,0,0)` eight
times — not "each exactly once with no duplicates" as claimed. -/
theorem claim_C9_cx :
    (1:ℕ) ≤ 1 ∧ ¬ (get_corners (1, 1, 1)).Nodup ∧
    (get_corners (1, 1, 1)).count (0, 0, 0) = 8 := by decide

/-- C9 (amended): for every shape whose extents are all ≥ 2, `get_corners`
returns exactly the 8 combinations of `{0, dim-1}` per axis, each exactly
once, with no duplicates and no omissions.  (With an extent of `1`, the
degenerate value `0 = dim-1` makes rows coincide, so "exactly once" needs
`≥ 2`; a zero extent underflows `dim - 1` in the source.) -/
theorem claim_C9 (s0 s1 s2 : ℕ) (h0 : 2 ≤ s0) (h1 : 2 ≤ s1) (h2 : 2 ≤ s2) :
    (get_corners (s0, s1, s2)).length = 8 ∧
    (get_corners (s0, s1, s2)).Nodup ∧
    ∀ p : ℕ × ℕ × ℕ, p ∈ get_corners (s0, s1, s2) ↔
      (p.1 = 0 ∨ p.1 = s0 - 1) ∧ (p.2.1 = 0 ∨ p.2.1 = s1 - 1) ∧
      (p.2.2 = 0 ∨ p.2.2 = s2 - 1) := by
  refine ⟨rfl, ?_, ?_⟩
  · have g0 : ¬ (0 : ℕ) = s0 - 1 := by omega
    have g1 : ¬ (0 : ℕ) = s1 - 1 := by omega
    have g2 : ¬ (0 : ℕ) = s2 - 1 := by omega
    have g0s : ¬ s0 - 1 = 0 := by omega
    have g1s : ¬ s1 - 1 = 0 := by omega
    have g2s : ¬ s2 - 1 = 0 := by omega
    simp [get_corners, List.nodup_cons, Prod.ext_iff, g0, g1, g2, g0s, g1s, g2s]
  · rintro ⟨a, b, c⟩
    simp only [get_corners, List.mem_cons, List.not_mem_nil, or_false, Prod.mk.injEq]
    omega

/-- C9 (witness): the amended claim at the spec's example shape
`(256, 230, 16)`. -/
theorem claim_C9_witness :
    (2 ≤ 256 ∧ 2 ≤ 230 ∧ 2 ≤ 16) ∧
    ((get_corners (256, 230, 16)).length = 8 ∧
     (get_corners (256, 230, 16)).Nodup ∧
     ∀ p : ℕ × ℕ × ℕ, p ∈ get_corners (256, 230, 16) ↔
       (p.1 = 0 ∨ p.1 = 255) ∧ (p.2.1 = 0 ∨ p.2.1 = 229) ∧
       (p.2.2 = 0 ∨ p.2.2 = 15)) :=
  ⟨⟨by decide, by decide, by decide⟩,
   claim_C9 256 230 16 (by decide) (by decide) (by decide)⟩

/-- C7 (confirmed): `sanitize_im_shape` promotes a rank-2 input to
`(a, b, 1)` with the data untouched, passes a rank-3 input through
unchanged, and rejects every other rank with the shape error, which
`resample_to_output` surfaces before any resampling work. -/
theorem claim_C7 {U : Type} [CommRing U] (castTU : ℚ → U) (v : ArrayD U)
    (in_affine : Mat4) (voxel_sizes : Vec3) (s : SamplerV U) :
    (∀ a b, v.shape = [a, b] → sanitize_im_shape v = .ok ⟨a, b, 1, v.data⟩) ∧
    (∀ a b c, v.shape = [a, b, c] → sanitize_im_shape v = .ok ⟨a, b, c, v.data⟩) ∧
    (v.shape.length ≠ 2 → v.shape.length ≠ 3 →
      sanitize_im_shape v = .error "invalid shape" ∧
      resample_to_output castTU v in_affine voxel_sizes s = .error "invalid shape") := by
  refine ⟨?_, ?_, ?_⟩
  · intro a b h; simp [sanitize_im_shape, h]
  · intro a b c h; simp [sanitize_im_shape, h]
  · intro h2 h3
    have hsan : sanitize_im_shape v = .error "invalid shape" := by
      unfold sanitize_im_shape
      rcases hv : v.shape with _ | ⟨a, _ | ⟨b, _ | ⟨c, t⟩⟩⟩
      · rfl
      · rfl
      · exact absurd (by rw [hv]; rfl) h2
      · rcases t with _ | ⟨d, t2⟩
        · exact absurd (by rw [hv]; rfl) h3
        · rfl
    refine ⟨hsan, ?_⟩
    simp [resample_to_output, hsan]

/-- C7 (witness): a rank-2 input gains a trailing singleton axis. -/
theorem claim_C7_witness :
    sanitize_im_shape (U := ℚ) ⟨[2, 2], [1, 2, 3, 4]⟩ = .ok ⟨2, 2, 1, [1, 2, 3, 4]⟩ :=
  (claim_C7 id ⟨[2, 2], [1, 2, 3, 4]⟩ id4 ⟨1, 1, 1⟩
    (.nearestNeighbor ⟨.Constant, 0⟩)).1 2 2 rfl

/-- C6 (confirmed): for both sampler variants, when the coordinate count
equals `product(out_shape)` the sampler returns an array with exactly
`product(out_shape)` elements in shape `out_shape`; when the produced value
count differs (the samplers produce one value per coordinate row) the
result is the ShapeError, never a truncated or padded array. -/
theorem claim_C6 {U : Type} [CommRing U] (castTU : ℚ → U) (s : SamplerV U)
    (im : Vol3 U) (coords : List Vec3) (out_shape : ℕ × ℕ × ℕ) :
    (coords.length = out_shape.1 * out_shape.2.1 * out_shape.2.2 →
      ∃ v : Vol3 U, (s.sample castTU im coords out_shape).2 = .ok v ∧
        v.data.length = out_shape.1 * out_shape.2.1 * out_shape.2.2 ∧
        v.s0 = out_shape.1 ∧ v.s1 = out_shape.2.1 ∧ v.s2 = out_shape.2.2) ∧
    (coords.length ≠ out_shape.1 * out_shape.2.1 * out_shape.2.2 →
      (s.sample castTU im coords out_shape).2 = .error shapeErr) := by
  cases s with
  | nearestNeighbor c =>
    have hlen : ((apply_sampling_mode c im coords).map (nearestNeighborVal c im)).length
        = coords.length := by
      rw [List.length_map, apply_sampling_mode_length]
    constructor
    · intro h
      refine ⟨⟨out_shape.1, out_shape.2.1, out_shape.2.2,
        (apply_sampling_mode c im coords).map (nearestNeighborVal c im)⟩,
        ?_, ?_, rfl, rfl, rfl⟩
      · simp only [SamplerV.sample, nearestNeighborSample]
        rw [hlen, if_pos h]
      · rw [hlen, h]
    · intro h
      simp only [SamplerV.sample, nearestNeighborSample]
      rw [hlen, if_neg h]
  | triLinear c =>
    have hlen : ((apply_sampling_mode c im coords).map (triLinearVal castTU c im)).length
        = coords.length := by
      rw [List.length_map, apply_sampling_mode_length]
    constructor
    · intro h
      refine ⟨⟨out_shape.1, out_shape.2.1, out_shape.2.2,
        (apply_sampling_mode c im coords).map (triLinearVal castTU c im)⟩,
        ?_, ?_, rfl, rfl, rfl⟩
      · simp only [SamplerV.sample, triLinearSample]
        rw [hlen, if_pos h]
      · rw [hlen, h]
    · intro h
      simp only [SamplerV.sample, triLinearSample]
      rw [hlen, if_neg h]

/-- C6 (witness): a single coordinate against a `1×1×1` output shape gives
an array of one element; against a `2×1×1` output shape it is the
ShapeError. -/
theorem claim_C6_witness :
    (∃ v : Vol3 ℚ,
      ((SamplerV.nearestNeighbor ⟨.Constant, 0⟩).sample id ⟨1, 1, 1, [7]⟩
        [⟨0, 0, 0⟩] (1, 1, 1)).2 = .ok v ∧
      v.data.length = 1 ∧ v.s0 = 1 ∧ v.s1 = 1 ∧ v.s2 = 1) ∧
    ((SamplerV.nearestNeighbor ⟨.Constant, (0:ℚ)⟩).sample id ⟨1, 1, 1, [7]⟩
        [⟨0, 0, 0⟩] (2, 1, 1)).2 = .error shapeErr :=
  ⟨by
    have h := (claim_C6 id (.nearestNeighbor ⟨.Constant, 0⟩) ⟨1, 1, 1, [7]⟩
      [⟨0, 0, 0⟩] (1, 1, 1)).1 (by decide)
    simpa using h,
   (claim_C6 id (.nearestNeighbor ⟨.Constant, 0⟩) ⟨1, 1, 1, [7]⟩
      [⟨0, 0, 0⟩] (2, 1, 1)).2 (by decide)⟩

/-- C10 (confirmed): `sample` never touches the input volume or the sampler
configuration (both are behind shared borrows in the source, and the
embedding is pure in them), but it does mutate the `&mut` coordinate matrix
in place: the caller's matrix afterwards holds exactly
`apply_sampling_mode`'s output — unchanged under `Constant`, and clamped
per axis into `[0, dim-1]` under `Nearest`, for both sampler variants. -/
theorem claim_C10 {U : Type} [CommRing U] (castTU : ℚ → U) (s : SamplerV U)
    (im : Vol3 U) (coords : List Vec3) (out_shape : ℕ × ℕ × ℕ) :
    (s.sample castTU im coords out_shape).1 = apply_sampling_mode s.cfg im coords ∧
    (s.cfg.mode = .Constant → (s.sample castTU im coords out_shape).1 = coords) ∧
    (s.cfg.mode = .Nearest →
      (s.sample castTU im coords out_shape).1 = coords.map (clampPt im) ∧
      ∀ q ∈ (s.sample castTU im coords out_shape).1,
        0 ≤ q.x ∧ q.x ≤ ((im.s0 - 1 : ℕ) : ℚ) ∧
        0 ≤ q.y ∧ q.y ≤ ((im.s1 - 1 : ℕ) : ℚ) ∧
        0 ≤ q.z ∧ q.z ≤ ((im.s2 - 1 : ℕ) : ℚ)) := by
  have key : ∀ (cfg : SamplerCfg U) (fst : List Vec3),
      fst = apply_sampling_mode cfg im coords →
      fst = apply_sampling_mode cfg im coords ∧
      (cfg.mode = .Constant → fst = coords) ∧
      (cfg.mode = .Nearest →
        fst = coords.map (clampPt im) ∧
        ∀ q ∈ fst,
          0 ≤ q.x ∧ q.x ≤ ((im.s0 - 1 : ℕ) : ℚ) ∧
          0 ≤ q.y ∧ q.y ≤ ((im.s1 - 1 : ℕ) : ℚ) ∧
          0 ≤ q.z ∧ q.z ≤ ((im.s2 - 1 : ℕ) : ℚ)) := by
    intro cfg fst hfst
    subst hfst
    refine ⟨rfl, ?_, ?_⟩
    · intro hm; simp [apply_sampling_mode, hm]
    · intro hm
      refine ⟨by simp [apply_sampling_mode, hm], ?_⟩
      intro q hq
      simp only [apply_sampling_mode, hm, List.mem_map] at hq
      obtain ⟨p, _, hp⟩ := hq
      subst hp
      have b0 := clampQ_mem (x := p.x) (Nat.cast_nonneg (im.s0 - 1) : (0:ℚ) ≤ _)
      have b1 := clampQ_mem (x := p.y) (Nat.cast_nonneg (im.s1 - 1) : (0:ℚ) ≤ _)
      have b2 := clampQ_mem (x := p.z) (Nat.cast_nonneg (im.s2 - 1) : (0:ℚ) ≤ _)
      exact ⟨b0.1, b0.2, b1.1, b1.2, b2.1, b2.2⟩
  cases s with
  | nearestNeighbor c => exact key c _ rfl
  | triLinear c => exact key c _ rfl

/-- C8 (confirmed): TriLinear at an exact in-bounds integer coordinate:
the corner weight `wa` is one, the other seven weights are zero, the
coordinate is untouched by the `Nearest` clamp, and the sampled value is
exactly the volume's voxel at that coordinate (for any cast preserving
0 and 1, hence in particular the float and integer casts). -/
theorem claim_C8 {U : Type} [CommRing U] (castTU : ℚ → U)
    (hc0 : castTU 0 = 0) (hc1 : castTU 1 = 1)
    (cfg : SamplerCfg U) (im : Vol3 U) (i j k : ℕ)
    (hi : i < im.s0) (hj : j < im.s1) (hk : k < im.s2)
    (hlen : im.data.length = im.s0 * im.s1 * im.s2) :
    triWeights ⟨(i : ℚ), (j : ℚ), (k : ℚ)⟩ = (1, 0, 0, 0, 0, 0, 0, 0) ∧
    clampPt im ⟨(i : ℚ), (j : ℚ), (k : ℚ)⟩ = ⟨(i : ℚ), (j : ℚ), (k : ℚ)⟩ ∧
    ∃ v : U, im.getIdx i j k = some v ∧
      triLinearVal castTU cfg im ⟨(i : ℚ), (j : ℚ), (k : ℚ)⟩ = v := by
  have hW : triWeights ⟨(i : ℚ), (j : ℚ), (k : ℚ)⟩ = (1, 0, 0, 0, 0, 0, 0, 0) := by
    simp only [triWeights, Int.floor_natCast, Prod.mk.injEq]
    norm_num
  refine ⟨hW, ?_, ?_⟩
  · have bx : (i : ℚ) ≤ ((im.s0 - 1 : ℕ) : ℚ) := by
      have : i ≤ im.s0 - 1 := by omega
      exact_mod_cast this
    have by' : (j : ℚ) ≤ ((im.s1 - 1 : ℕ) : ℚ) := by
      have : j ≤ im.s1 - 1 := by omega
      exact_mod_cast this
    have bz : (k : ℚ) ≤ ((im.s2 - 1 : ℕ) : ℚ) := by
      have : k ≤ im.s2 - 1 := by omega
      exact_mod_cast this
    simp [clampPt, clampQ_eq_self (Nat.cast_nonneg i) bx,
      clampQ_eq_self (Nat.cast_nonneg j) by',
      clampQ_eq_self (Nat.cast_nonneg k) bz]
  · have hflat : (i * im.s1 + j) * im.s2 + k < im.data.length := by
      rw [hlen]; exact flat_lt hi hj hk
    refine ⟨im.data[(i * im.s1 + j) * im.s2 + k], ?_, ?_⟩
    · rw [getIdx_in im hi hj hk, List.getElem?_eq_getElem hflat]
    · have hbranch : ¬ ((i : ℚ) < 0 ∨ (j : ℚ) < 0 ∨ (k : ℚ) < 0 ∨
          (i : ℚ) > (im.s0 : ℚ) ∨ (j : ℚ) > (im.s1 : ℚ) ∨ (k : ℚ) > (im.s2 : ℚ)) := by
        push_neg
        refine ⟨Nat.cast_nonneg i, Nat.cast_nonneg j, Nat.cast_nonneg k, ?_, ?_, ?_⟩ <;>
          exact_mod_cast Nat.le_of_lt (by omega)
      simp only [triLinearVal, hbranch, if_false, if_neg hbranch]
      rw [hW]
      simp only [Int.floor_natCast, Int.cast_natCast, hc0, hc1, one_mul, zero_mul,
        add_zero, ratAsNat_natCast]
      rw [get_val, getIdx_in im hi hj hk, List.getElem?_eq_getElem hflat]
      rfl

/-- C8 (witness): the integer coordinate `(0,1,0)` of a `1×2×1` volume
reproduces the voxel there. -/
theorem claim_C8_witness :
    triWeights ⟨(0 : ℚ), (1 : ℚ), (0 : ℚ)⟩ = (1, 0, 0, 0, 0, 0, 0, 0) ∧
    clampPt (⟨1, 2, 1, [3, 8]⟩ : Vol3 ℚ) ⟨(0 : ℚ), (1 : ℚ), (0 : ℚ)⟩ =
      ⟨(0 : ℚ), (1 : ℚ), (0 : ℚ)⟩ ∧
    ∃ v : ℚ, (⟨1, 2, 1, [3, 8]⟩ : Vol3 ℚ).getIdx 0 1 0 = some v ∧
      triLinearVal id ⟨.Constant, 0⟩ ⟨1, 2, 1, [3, 8]⟩ ⟨(0 : ℚ), (1 : ℚ), (0 : ℚ)⟩ = v :=
  claim_C8 id rfl rfl ⟨.Constant, 0⟩ ⟨1, 2, 1, [3, 8]⟩ 0 1 0
    (by decide) (by decide) (by decide) (by decide)

/-- Modelled from the spec (section 4.6, step 6): the same per-coordinate
trilinear computation, but with the weighted sum `Σ weight_i · value_i`
accumulated in the coordinate type `T = ℚ` (values lifted by `castUT`) and
cast to the element type exactly once at the end.  This is the refinement
target the source is compared against for C2; everything except the final
accumulation is shared with `triLinearVal`. -/
def triLinearValSpecAcc {U : Type} [CommRing U] (castUT : U → ℚ) (castTU : ℚ → U)
    (cfg : SamplerCfg U) (im : Vol3 U) (p : Vec3) : U :=
  if p.x < 0 ∨ p.y < 0 ∨ p.z < 0 ∨
     p.x > (im.s0 : ℚ) ∨ p.y > (im.s1 : ℚ) ∨ p.z > (im.s2 : ℚ) then
    cfg.cval
  else
    let x0 : ℚ := (⌊p.x⌋ : ℚ)
    let y0 : ℚ := (⌊p.y⌋ : ℚ)
    let z0 : ℚ := (⌊p.z⌋ : ℚ)
    let x1 : ℚ := x0 + 1
    let y1 : ℚ := y0 + 1
    let z1 : ℚ := z0 + 1
    let va := get_val cfg im (ratAsNat x0) (ratAsNat y0) (ratAsNat z0)
    let vb := get_val cfg im (ratAsNat x0) (ratAsNat y0) (ratAsNat z1)
    let vc := get_val cfg im (ratAsNat x0) (ratAsNat y1) (ratAsNat z0)
    let vd := get_val cfg im (ratAsNat x0) (ratAsNat y1) (ratAsNat z1)
    let ve := get_val cfg im (ratAsNat x1) (ratAsNat y0) (ratAsNat z0)
    let vf := get_val cfg im (ratAsNat x1) (ratAsNat y0) (ratAsNat z1)
    let vg := get_val cfg im (ratAsNat x1) (ratAsNat y1) (ratAsNat z0)
    let vh := get_val cfg im (ratAsNat x1) (ratAsNat y1) (ratAsNat z1)
    let w := triWeights p
    castTU (w.1 * castUT va + w.2.1 * castUT vb + w.2.2.1 * castUT vc +
      w.2.2.2.1 * castUT vd + w.2.2.2.2.1 * castUT ve +
      w.2.2.2.2.2.1 * castUT vf + w.2.2.2.2.2.2.1 * castUT vg +
      w.2.2.2.2.2.2.2 * castUT vh)

/-- C2 (counterexample): with integer elements (`U = ℤ`, the truncating
float-to-integer `as` cast) the source's per-term casting is observable:
at coordinate `(1/2, 0, 0)` of a `2×1×1` volume of ones, the source
computes 0, while accumulating in the coordinate type and casting once at
the end computes 1. -/
theorem claim_C2_cx :
    triLinearVal (U := ℤ) ratAsInt ⟨.Constant, 0⟩ ⟨2, 1, 1, [1, 1]⟩ ⟨1/2, 0, 0⟩ = 0 ∧
    triLinearValSpecAcc (U := ℤ) Int.cast ratAsInt ⟨.Constant, 0⟩ ⟨2, 1, 1, [1, 1]⟩
      ⟨1/2, 0, 0⟩ = 1 ∧
    (0 : ℤ) ≠ 1 := by
  refine ⟨?_, ?_, by decide⟩ <;>
    norm_num [triLinearVal, triLinearValSpecAcc, triWeights, get_val, Vol3.getIdx,
      ratAsNat, ratAsInt]

/-- C2 (amended): in `TriLinear::sample` each of the eight weights is cast
from the coordinate type `T` to the element type `U` individually, and the
weighted sum is accumulated in `U` — once per term, not once at the end.
When the element type is the coordinate type itself (identity casts, the
`f32`/`f32` instantiation), per-term casting coincides with accumulating
in `T` and casting once at the end; for integer element types the two
disagree (see the counterexample). -/
theorem claim_C2 (cfg : SamplerCfg ℚ) (im : Vol3 ℚ) (p : Vec3) :
    triLinearVal (U := ℚ) id cfg im p =
      triLinearValSpecAcc (U := ℚ) id id cfg im p := by
  unfold triLinearVal triLinearValSpecAcc
  split
  · rfl
  · simp only [id_eq]

/-- A mapped coordinate that falls outside `[0, dim)` on some axis of the
input volume. -/
def outOfRange {U : Type} (im : Vol3 U) (p : Vec3) : Prop :=
  p.x < 0 ∨ (im.s0 : ℚ) ≤ p.x ∨ p.y < 0 ∨ (im.s1 : ℚ) ≤ p.y ∨
  p.z < 0 ∨ (im.s2 : ℚ) ≤ p.z

/-- A coordinate whose per-axis ceiling falls outside `[0, dim - 1]` — the
out-of-bounds notion `NearestNeighbor::sample` actually acts on, since it
ceils the whole matrix before its bounds check. -/
def ceilOutOfRange {U : Type} (im : Vol3 U) (p : Vec3) : Prop :=
  ⌈p.x⌉ < 0 ∨ (im.s0 : ℤ) ≤ ⌈p.x⌉ ∨ ⌈p.y⌉ < 0 ∨ (im.s1 : ℤ) ≤ ⌈p.y⌉ ∨
  ⌈p.z⌉ < 0 ∨ (im.s2 : ℤ) ≤ ⌈p.z⌉

/-- A lookup whose index is out of bounds on some axis falls back to the
fill value. -/
theorem get_val_oob {U : Type} (cfg : SamplerCfg U) (im : Vol3 U) {i j k : ℕ}
    (h : im.s0 ≤ i ∨ im.s1 ≤ j ∨ im.s2 ≤ k) : get_val cfg im i j k = cfg.cval := by
  simp [get_val, getIdx_oob im h]

/-- The eight trilinear weights always sum to one, so when every corner
value is the same constant `c` and the weight cast preserves addition and
one, the accumulated sum collapses to `c`.  (A truncating cast such as the
float→integer `as` cast does NOT preserve addition, and the conclusion can
then fail.) -/
theorem castTU_weightSum_mul {U : Type} [CommRing U] (castTU : ℚ → U)
    (hadd : ∀ a b : ℚ, castTU (a + b) = castTU a + castTU b)
    (hone : castTU 1 = 1) (p : Vec3) (c : U) :
    castTU (triWeights p).1 * c + castTU (triWeights p).2.1 * c +
      castTU (triWeights p).2.2.1 * c + castTU (triWeights p).2.2.2.1 * c +
      castTU (triWeights p).2.2.2.2.1 * c + castTU (triWeights p).2.2.2.2.2.1 * c +
      castTU (triWeights p).2.2.2.2.2.2.1 * c + castTU (triWeights p).2.2.2.2.2.2.2 * c
      = c := by
  have hsum : (triWeights p).1 + (triWeights p).2.1 + (triWeights p).2.2.1 +
      (triWeights p).2.2.2.1 + (triWeights p).2.2.2.2.1 + (triWeights p).2.2.2.2.2.1 +
      (triWeights p).2.2.2.2.2.2.1 + (triWeights p).2.2.2.2.2.2.2 = 1 := by
    simp only [triWeights]
    ring
  calc castTU (triWeights p).1 * c + castTU (triWeights p).2.1 * c +
      castTU (triWeights p).2.2.1 * c + castTU (triWeights p).2.2.2.1 * c +
      castTU (triWeights p).2.2.2.2.1 * c + castTU (triWeights p).2.2.2.2.2.1 * c +
      castTU (triWeights p).2.2.2.2.2.2.1 * c + castTU (triWeights p).2.2.2.2.2.2.2 * c
      = (castTU (triWeights p).1 + castTU (triWeights p).2.1 +
        castTU (triWeights p).2.2.1 + castTU (triWeights p).2.2.2.1 +
        castTU (triWeights p).2.2.2.2.1 + castTU (triWeights p).2.2.2.2.2.1 +
        castTU (triWeights p).2.2.2.2.2.2.1 + castTU (triWeights p).2.2.2.2.2.2.2) * c := by
        ring
    _ = castTU ((triWeights p).1 + (triWeights p).2.1 + (triWeights p).2.2.1 +
        (triWeights p).2.2.2.1 + (triWeights p).2.2.2.2.1 + (triWeights p).2.2.2.2.2.1 +
        (triWeights p).2.2.2.2.2.2.1 + (triWeights p).2.2.2.2.2.2.2) * c := by
        simp only [← hadd]
    _ = c := by rw [hsum, hone, one_mul]

/-- TriLinear emits the fill value at every coordinate outside `[0, dim)`,
for any element type whose weight cast preserves addition and one (the
float instantiation's identity cast does): either its bounds check fires,
or (for a coordinate exactly at `dim`) all eight corner lookups miss and
the weights sum to one. -/
theorem triLinearVal_oob {U : Type} [CommRing U] (castTU : ℚ → U)
    (hadd : ∀ a b : ℚ, castTU (a + b) = castTU a + castTU b)
    (hone : castTU 1 = 1)
    (cfg : SamplerCfg U) (im : Vol3 U) (p : Vec3)
    (h : outOfRange im p) : triLinearVal castTU cfg im p = cfg.cval := by
  by_cases hB : p.x < 0 ∨ p.y < 0 ∨ p.z < 0 ∨
      p.x > (im.s0 : ℚ) ∨ p.y > (im.s1 : ℚ) ∨ p.z > (im.s2 : ℚ)
  · simp only [triLinearVal, if_pos hB]
  · have hB2 := hB
    push_neg at hB2
    obtain ⟨hx0, hy0, hz0, hx1, hy1, hz1⟩ := hB2
    simp only [triLinearVal, if_neg hB]
    rcases h with hx | hx | hy | hy | hz | hz
    · linarith
    · -- p.x = im.s0: both x corners are out of bounds
      have hpx : p.x = (im.s0 : ℚ) := le_antisymm hx1 hx
      have hfx : (⌊p.x⌋ : ℚ) = ((im.s0 : ℕ) : ℚ) := by
        rw [hpx, Int.floor_natCast]; push_cast; rfl
      have hn0 : ratAsNat ((⌊p.x⌋ : ℚ)) = im.s0 := by rw [hfx, ratAsNat_natCast]
      have hn1 : ratAsNat ((⌊p.x⌋ : ℚ) + 1) = im.s0 + 1 := by
        rw [hfx, show ((im.s0 : ℕ) : ℚ) + 1 = ((im.s0 + 1 : ℕ) : ℚ) by push_cast; ring,
          ratAsNat_natCast]
      simp only [hn0, hn1]
      have hv0 : ∀ a b : ℕ, get_val cfg im im.s0 a b = cfg.cval := fun a b =>
        get_val_oob cfg im (Or.inl (le_refl _))
      have hv1 : ∀ a b : ℕ, get_val cfg im (im.s0 + 1) a b = cfg.cval := fun a b =>
        get_val_oob cfg im (Or.inl (Nat.le_succ _))
      simp only [hv0, hv1]
      exact castTU_weightSum_mul castTU hadd hone p cfg.cval
    · linarith
    · -- p.y = im.s1: both y corners are out of bounds
      have hpy : p.y = (im.s1 : ℚ) := le_antisymm hy1 hy
      have hfy : (⌊p.y⌋ : ℚ) = ((im.s1 : ℕ) : ℚ) := by
        rw [hpy, Int.floor_natCast]; push_cast; rfl
      have hn0 : ratAsNat ((⌊p.y⌋ : ℚ)) = im.s1 := by rw [hfy, ratAsNat_natCast]
      have hn1 : ratAsNat ((⌊p.y⌋ : ℚ) + 1) = im.s1 + 1 := by
        rw [hfy, show ((im.s1 : ℕ) : ℚ) + 1 = ((im.s1 + 1 : ℕ) : ℚ) by push_cast; ring,
          ratAsNat_natCast]
      simp only [hn0, hn1]
      have hv0 : ∀ a b : ℕ, get_val cfg im a im.s1 b = cfg.cval := fun a b =>
        get_val_oob cfg im (Or.inr (Or.inl (le_refl _)))
      have hv1 : ∀ a b : ℕ, get_val cfg im a (im.s1 + 1) b = cfg.cval := fun a b =>
        get_val_oob cfg im (Or.inr (Or.inl (Nat.le_succ _)))
      simp only [hv0, hv1]
      exact castTU_weightSum_mul castTU hadd hone p cfg.cval
    · linarith
    · -- p.z = im.s2: both z corners are out of bounds
      have hpz : p.z = (im.s2 : ℚ) := le_antisymm hz1 hz
      have hfz : (⌊p.z⌋ : ℚ) = ((im.s2 : ℕ) : ℚ) := by
        rw [hpz, Int.floor_natCast]; push_cast; rfl
      have hn0 : ratAsNat ((⌊p.z⌋ : ℚ)) = im.s2 := by rw [hfz, ratAsNat_natCast]
      have hn1 : ratAsNat ((⌊p.z⌋ : ℚ) + 1) = im.s2 + 1 := by
        rw [hfz, show ((im.s2 : ℕ) : ℚ) + 1 = ((im.s2 + 1 : ℕ) : ℚ) by push_cast; ring,
          ratAsNat_natCast]
      simp only [hn0, hn1]
      have hv0 : ∀ a b : ℕ, get_val cfg im a b im.s2 = cfg.cval := fun a b =>
        get_val_oob cfg im (Or.inr (Or.inr (le_refl _)))
      have hv1 : ∀ a b : ℕ, get_val cfg im a b (im.s2 + 1) = cfg.cval := fun a b =>
        get_val_oob cfg im (Or.inr (Or.inr (Nat.le_succ _)))
      simp only [hv0, hv1]
      exact castTU_weightSum_mul castTU hadd hone p cfg.cval

/-- NearestNeighbor emits the fill value exactly on the ceiled notion of
out-of-bounds: when some axis ceiling leaves `[0, dim-1]`, either the
sampler's own check fires or the lookup misses. -/
theorem nearestNeighborVal_ceil_oob {U : Type} (cfg : SamplerCfg U) (im : Vol3 U)
    (p : Vec3) (h : ceilOutOfRange im p) : nearestNeighborVal cfg im p = cfg.cval := by
  by_cases hB : ((⌈p.x⌉ : ℚ)) < 0 ∨ ((⌈p.y⌉ : ℚ)) < 0 ∨ ((⌈p.z⌉ : ℚ)) < 0 ∨
      ((⌈p.x⌉ : ℚ)) > (im.s0 : ℚ) ∨ ((⌈p.y⌉ : ℚ)) > (im.s1 : ℚ) ∨
      ((⌈p.z⌉ : ℚ)) > (im.s2 : ℚ)
  · simp only [nearestNeighborVal, if_pos hB]
  · have hB2 := hB
    push_neg at hB2
    obtain ⟨hx0, hy0, hz0, hx1, hy1, hz1⟩ := hB2
    simp only [nearestNeighborVal, if_neg hB]
    rcases h with hx | hx | hy | hy | hz | hz
    · exact absurd (by exact_mod_cast hx) (not_lt.mpr hx0)
    · have hex : ⌈p.x⌉ = (im.s0 : ℤ) := le_antisymm (by exact_mod_cast hx1) hx
      have : ratAsNat ((⌈p.x⌉ : ℚ)) = im.s0 := by
        rw [hex, show (((im.s0 : ℤ) : ℚ)) = ((im.s0 : ℕ) : ℚ) by push_cast; rfl,
          ratAsNat_natCast]
      rw [this]
      exact get_val_oob cfg im (Or.inl (le_refl _))
    · exact absurd (by exact_mod_cast hy) (not_lt.mpr hy0)
    · have hey : ⌈p.y⌉ = (im.s1 : ℤ) := le_antisymm (by exact_mod_cast hy1) hy
      have : ratAsNat ((⌈p.y⌉ : ℚ)) = im.s1 := by
        rw [hey, show (((im.s1 : ℤ) : ℚ)) = ((im.s1 : ℕ) : ℚ) by push_cast; rfl,
          ratAsNat_natCast]
      rw [this]
      exact get_val_oob cfg im (Or.inr (Or.inl (le_refl _)))
    · exact absurd (by exact_mod_cast hz) (not_lt.mpr hz0)
    · have hez : ⌈p.z⌉ = (im.s2 : ℤ) := le_antisymm (by exact_mod_cast hz1) hz
      have : ratAsNat ((⌈p.z⌉ : ℚ)) = im.s2 := by
        rw [hez, show (((im.s2 : ℤ) : ℚ)) = ((im.s2 : ℕ) : ℚ) by push_cast; rfl,
          ratAsNat_natCast]
      rw [this]
      exact get_val_oob cfg im (Or.inr (Or.inr (le_refl _)))

/-- After the `Nearest` clamp, NearestNeighbor always lands on a genuine
voxel of the input volume. -/
theorem nearestNeighborVal_clamped_voxel {U : Type} (cfg : SamplerCfg U)
    (im : Vol3 U) (p : Vec3)
    (h0 : 1 ≤ im.s0) (h1 : 1 ≤ im.s1) (h2 : 1 ≤ im.s2)
    (hlen : im.data.length = im.s0 * im.s1 * im.s2) :
    ∃ i j k : ℕ, i < im.s0 ∧ j < im.s1 ∧ k < im.s2 ∧
      im.getIdx i j k = some (nearestNeighborVal cfg im (clampPt im p)) := by
  set q := clampPt im p with hq
  have b0 := clampQ_mem (x := p.x) (Nat.cast_nonneg (im.s0 - 1) : (0:ℚ) ≤ _)
  have b1 := clampQ_mem (x := p.y) (Nat.cast_nonneg (im.s1 - 1) : (0:ℚ) ≤ _)
  have b2 := clampQ_mem (x := p.z) (Nat.cast_nonneg (im.s2 - 1) : (0:ℚ) ≤ _)
  have hqx : 0 ≤ q.x ∧ q.x ≤ ((im.s0 - 1 : ℕ) : ℚ) := b0
  have hqy : 0 ≤ q.y ∧ q.y ≤ ((im.s1 - 1 : ℕ) : ℚ) := b1
  have hqz : 0 ≤ q.z ∧ q.z ≤ ((im.s2 - 1 : ℕ) : ℚ) := b2
  have hcx0 : (0 : ℤ) ≤ ⌈q.x⌉ := Int.ceil_nonneg hqx.1
  have hcy0 : (0 : ℤ) ≤ ⌈q.y⌉ := Int.ceil_nonneg hqy.1
  have hcz0 : (0 : ℤ) ≤ ⌈q.z⌉ := Int.ceil_nonneg hqz.1
  have hcx1 : ⌈q.x⌉ ≤ ((im.s0 - 1 : ℕ) : ℤ) := Int.ceil_le.mpr (by exact_mod_cast hqx.2)
  have hcy1 : ⌈q.y⌉ ≤ ((im.s1 - 1 : ℕ) : ℤ) := Int.ceil_le.mpr (by exact_mod_cast hqy.2)
  have hcz1 : ⌈q.z⌉ ≤ ((im.s2 - 1 : ℕ) : ℤ) := Int.ceil_le.mpr (by exact_mod_cast hqz.2)
  have hB : ¬ (((⌈q.x⌉ : ℚ)) < 0 ∨ ((⌈q.y⌉ : ℚ)) < 0 ∨ ((⌈q.z⌉ : ℚ)) < 0 ∨
      ((⌈q.x⌉ : ℚ)) > (im.s0 : ℚ) ∨ ((⌈q.y⌉ : ℚ)) > (im.s1 : ℚ) ∨
      ((⌈q.z⌉ : ℚ)) > (im.s2 : ℚ)) := by
    push_neg
    refine ⟨by exact_mod_cast hcx0, by exact_mod_cast hcy0, by exact_mod_cast hcz0,
      ?_, ?_, ?_⟩
    · exact_mod_cast le_trans hcx1 (by exact_mod_cast Nat.sub_le im.s0 1)
    · exact_mod_cast le_trans hcy1 (by exact_mod_cast Nat.sub_le im.s1 1)
    · exact_mod_cast le_trans hcz1 (by exact_mod_cast Nat.sub_le im.s2 1)
  have hnx : ratAsNat ((⌈q.x⌉ : ℚ)) = ⌈q.x⌉.toNat := by
    simp [ratAsNat, Int.floor_intCast]
  have hny : ratAsNat ((⌈q.y⌉ : ℚ)) = ⌈q.y⌉.toNat := by
    simp [ratAsNat, Int.floor_intCast]
  have hnz : ratAsNat ((⌈q.z⌉ : ℚ)) = ⌈q.z⌉.toNat := by
    simp [ratAsNat, Int.floor_intCast]
  have hix : ⌈q.x⌉.toNat < im.s0 := by omega
  have hjy : ⌈q.y⌉.toNat < im.s1 := by omega
  have hkz : ⌈q.z⌉.toNat < im.s2 := by omega
  have hflat : (⌈q.x⌉.toNat * im.s1 + ⌈q.y⌉.toNat) * im.s2 + ⌈q.z⌉.toNat
      < im.data.length := by
    rw [hlen]; exact flat_lt hix hjy hkz
  refine ⟨⌈q.x⌉.toNat, ⌈q.y⌉.toNat, ⌈q.z⌉.toNat, hix, hjy, hkz, ?_⟩
  have hval : nearestNeighborVal cfg im q =
      get_val cfg im (⌈q.x⌉.toNat) (⌈q.y⌉.toNat) (⌈q.z⌉.toNat) := by
    simp only [nearestNeighborVal, if_neg hB, hnx, hny, hnz]
  rw [hval, get_val, getIdx_in im hix hjy hkz, List.getElem?_eq_getElem hflat]
  rfl

/-- C3 (counterexample): three explicit failures of the claim.  First,
NearestNeighbor under `Constant`: the mapped coordinate `(-1/2, 0, 0)` of a
`1×1×1` volume `[7]` with fill value 5 is outside `[0, 1)` on x, yet the
sampler ceils `-1/2` to index 0 and returns the voxel 7, not the fill
value.  Second, TriLinear under `Constant` with integer elements (a valid
instantiation of the source's generic bounds, with the truncating
float→integer `as` cast): the coordinate `(2, 1/2, 0)` of a `2×1×1` volume
with fill value 5 is outside `[0, 2)` on x, the bounds check does not fire
(`2 > 2` is false), all eight corner lookups fall back to the fill value 5,
but the truncated weights (`1/2 → 0`) make the sum 0, not 5.  Third,
TriLinear under `Nearest`: the coordinate `(5, 1/2, 0)` of a `2×2×1`
volume `[9, 9, 0, 10]` with fill value 5 is clamped, but the resulting
interpolation `(0 + 10)/2 = 5` is no voxel value of the volume and
coincides with the fill value. -/
theorem claim_C3_cx :
    (outOfRange (⟨1, 1, 1, [7]⟩ : Vol3 ℚ) ⟨-1/2, 0, 0⟩ ∧
     nearestNeighborVal ⟨.Constant, 5⟩ ⟨1, 1, 1, [7]⟩ ⟨-1/2, 0, 0⟩ = 7 ∧
     (7 : ℚ) ≠ 5) ∧
    (outOfRange (⟨2, 1, 1, [1, 1]⟩ : Vol3 ℤ) ⟨2, 1/2, 0⟩ ∧
     triLinearVal (U := ℤ) ratAsInt ⟨.Constant, 5⟩ ⟨2, 1, 1, [1, 1]⟩ ⟨2, 1/2, 0⟩ = 0 ∧
     (0 : ℤ) ≠ 5) ∧
    (outOfRange (⟨2, 2, 1, [9, 9, 0, 10]⟩ : Vol3 ℚ) ⟨5, 1/2, 0⟩ ∧
     triLinearVal id ⟨.Nearest, 5⟩ ⟨2, 2, 1, [9, 9, 0, 10]⟩
       (clampPt ⟨2, 2, 1, [9, 9, 0, 10]⟩ ⟨5, 1/2, 0⟩) = 5 ∧
     (5 : ℚ) ∉ ([9, 9, 0, 10] : List ℚ)) := by
  refine ⟨⟨?_, ?_, by norm_num⟩, ⟨?_, ?_, by norm_num⟩, ⟨?_, ?_, by norm_num⟩⟩
  · norm_num [outOfRange]
  · have hc : ⌈(-(1/2) : ℚ)⌉ = 0 := by norm_num
    norm_num [nearestNeighborVal, get_val, Vol3.getIdx, ratAsNat, hc]
  · norm_num [outOfRange]
  · norm_num [triLinearVal, triWeights, get_val, Vol3.getIdx, ratAsNat, ratAsInt]
  · norm_num [outOfRange]
  · norm_num [triLinearVal, clampPt, clampQ, triWeights, get_val, Vol3.getIdx, ratAsNat]

/-- C3 (amended): per sampler variant and mode, over any element type `U`.
Under `Constant`: TriLinear emits the fill value at every mapped coordinate
outside `[0, dim)` provided the weight cast `T → U` preserves addition and
one — as the float instantiation's identity cast does; for a truncating
integer cast even this fails, the truncated weights turning the fill sum
into 0 (see the counterexample).  NearestNeighbor, which ceils the matrix
before its bounds check, emits the fill value whenever some axis ceiling
leaves `[0, dim-1]` (so coordinates in `(-1, 0)` are NOT filled — they
round into bounds, see the counterexample).  Under `Nearest`: every
coordinate is clamped per axis into `[0, dim-1]`, and NearestNeighbor then
returns a genuine voxel value of the input volume; TriLinear returns an
interpolation of voxel values which need not be any single voxel value and
may coincide with the fill value (see the counterexample). -/
theorem claim_C3 {U : Type} [CommRing U] (castTU : ℚ → U)
    (hadd : ∀ a b : ℚ, castTU (a + b) = castTU a + castTU b)
    (hone : castTU 1 = 1)
    (cfg : SamplerCfg U) (im : Vol3 U) (p : Vec3)
    (h0 : 1 ≤ im.s0) (h1 : 1 ≤ im.s1) (h2 : 1 ≤ im.s2)
    (hlen : im.data.length = im.s0 * im.s1 * im.s2) :
    (cfg.mode = .Constant → outOfRange im p →
      triLinearVal castTU cfg im p = cfg.cval) ∧
    (cfg.mode = .Constant → ceilOutOfRange im p →
      nearestNeighborVal cfg im p = cfg.cval) ∧
    (cfg.mode = .Nearest →
      apply_sampling_mode cfg im [p] = [clampPt im p] ∧
      0 ≤ (clampPt im p).x ∧ (clampPt im p).x ≤ ((im.s0 - 1 : ℕ) : ℚ) ∧
      0 ≤ (clampPt im p).y ∧ (clampPt im p).y ≤ ((im.s1 - 1 : ℕ) : ℚ) ∧
      0 ≤ (clampPt im p).z ∧ (clampPt im p).z ≤ ((im.s2 - 1 : ℕ) : ℚ) ∧
      ∃ i j k : ℕ, i < im.s0 ∧ j < im.s1 ∧ k < im.s2 ∧
        im.getIdx i j k = some (nearestNeighborVal cfg im (clampPt im p))) := by
  refine ⟨fun _ h => triLinearVal_oob castTU hadd hone cfg im p h,
    fun _ h => nearestNeighborVal_ceil_oob cfg im p h, fun hm => ?_⟩
  have b0 := clampQ_mem (x := p.x) (Nat.cast_nonneg (im.s0 - 1) : (0:ℚ) ≤ _)
  have b1 := clampQ_mem (x := p.y) (Nat.cast_nonneg (im.s1 - 1) : (0:ℚ) ≤ _)
  have b2 := clampQ_mem (x := p.z) (Nat.cast_nonneg (im.s2 - 1) : (0:ℚ) ≤ _)
  exact ⟨by simp [apply_sampling_mode, hm], b0.1, b0.2, b1.1, b1.2, b2.1, b2.2,
    nearestNeighborVal_clamped_voxel cfg im p h0 h1 h2 hlen⟩

/-- C3 (witness): the amended claim at a concrete `1×1×1` volume, the
identity weight cast, and the coordinate `(-1/2, 0, 0)`. -/
theorem claim_C3_witness :
    (1 ≤ 1 ∧ ([ (7:ℚ) ] : List ℚ).length = 1 * 1 * 1) ∧
    ((SamplerCfg.mk .Constant (5:ℚ)).mode = .Constant →
      outOfRange (⟨1, 1, 1, [7]⟩ : Vol3 ℚ) ⟨-1/2, 0, 0⟩ →
      triLinearVal id ⟨.Constant, 5⟩ ⟨1, 1, 1, [7]⟩ ⟨-1/2, 0, 0⟩ = 5) := by
  refine ⟨⟨by decide, by decide⟩, ?_⟩
  exact (claim_C3 id (fun a b => rfl) rfl ⟨.Constant, 5⟩ ⟨1, 1, 1, [7]⟩ ⟨-1/2, 0, 0⟩
    (by decide) (by decide) (by decide) (by decide)).1

/-- The coordinate lattice has exactly one entry per output voxel. -/
theorem enum3Coords_length (out_shape : ℕ × ℕ × ℕ) :
    (enum3Coords out_shape).length = out_shape.1 * out_shape.2.1 * out_shape.2.2 := by
  rw [enum3Coords, List.length_map, enum3_length]

/-- Affine application preserves the number of points. -/
theorem apply_affine_length (m : Mat4) (pts : List Vec3) :
    (apply_affine m pts).length = pts.length := by
  simp [apply_affine]

/-- Both samplers succeed whenever the coordinate count matches the output
shape (they produce exactly one value per coordinate row). -/
theorem sample_snd_isOk {U : Type} [CommRing U] (castTU : ℚ → U) (s : SamplerV U)
    (im : Vol3 U) (coords : List Vec3) (oshape : ℕ × ℕ × ℕ)
    (h : coords.length = oshape.1 * oshape.2.1 * oshape.2.2) :
    ∃ w, (s.sample castTU im coords oshape).2 = .ok w := by
  cases s with
  | nearestNeighbor c =>
    simp only [SamplerV.sample, nearestNeighborSample]
    rw [List.length_map, apply_sampling_mode_length, if_pos h]
    exact ⟨_, rfl⟩
  | triLinear c =>
    simp only [SamplerV.sample, triLinearSample]
    rw [List.length_map, apply_sampling_mode_length, if_pos h]
    exact ⟨_, rfl⟩

/-- A sampler's result is an array or the reshape error — nothing else. -/
theorem sample_snd_cases {U : Type} [CommRing U] (castTU : ℚ → U) (s : SamplerV U)
    (im : Vol3 U) (coords : List Vec3) (oshape : ℕ × ℕ × ℕ) :
    (∃ w, (s.sample castTU im coords oshape).2 = .ok w) ∨
    (s.sample castTU im coords oshape).2 = .error shapeErr := by
  cases s with
  | nearestNeighbor c =>
    simp only [SamplerV.sample, nearestNeighborSample]
    split
    · exact Or.inl ⟨_, rfl⟩
    · exact Or.inr rfl
  | triLinear c =>
    simp only [SamplerV.sample, triLinearSample]
    split
    · exact Or.inl ⟨_, rfl⟩
    · exact Or.inr rfl

/-- The only error `sanitize_im_shape` produces is the shape error. -/
theorem sanitize_im_shape_error {U : Type} (v : ArrayD U) (e : String)
    (h : sanitize_im_shape v = .error e) : e = "invalid shape" := by
  unfold sanitize_im_shape at h
  rcases hv : v.shape with _ | ⟨a, _ | ⟨b, _ | ⟨c, t⟩⟩⟩ <;> rw [hv] at h
  · simpa using h.symm
  · simpa using h.symm
  · simp at h
  · rcases t with _ | ⟨d, t2⟩
    · simp at h
    · simpa using h.symm

/-- C5 (confirmed): `resample_from_to` fails with the singular-affine error
exactly when `in_affine` has determinant zero (the `try_inverse` check runs
unconditionally on every call, and a singular affine is never replaced by a
default); when the affine is invertible, the compound transform fed to the
sampler is `inverse(in_affine) · out_affine`, with `inv4` a genuine two-sided
inverse. -/
theorem claim_C5 {U : Type} [CommRing U] (castTU : ℚ → U) (s : SamplerV U)
    (im : Vol3 U) (in_affine : Mat4) (out_shape : ℕ × ℕ × ℕ) (out_affine : Mat4) :
    (resample_from_to castTU im in_affine out_shape out_affine s = .error singularErr
      ↔ det4 in_affine = 0) ∧
    (det4 in_affine ≠ 0 →
      mul4 in_affine (inv4 in_affine) = id4 ∧
      mul4 (inv4 in_affine) in_affine = id4 ∧
      resample_from_to castTU im in_affine out_shape out_affine s =
        (s.sample castTU im
          (apply_affine (mul4 (inv4 in_affine) out_affine) (enum3Coords out_shape))
          out_shape).2) := by
  have hred : det4 in_affine ≠ 0 →
      resample_from_to castTU im in_affine out_shape out_affine s =
        (s.sample castTU im
          (apply_affine (mul4 (inv4 in_affine) out_affine) (enum3Coords out_shape))
          out_shape).2 := by
    intro hdet
    simp [resample_from_to, tryInverse4, hdet]
  constructor
  · constructor
    · intro h
      by_contra hdet
      rw [hred hdet] at h
      rcases sample_snd_cases castTU s im
          (apply_affine (mul4 (inv4 in_affine) out_affine) (enum3Coords out_shape))
          out_shape with ⟨w, hw⟩ | hw
      · rw [hw] at h
        exact Except.noConfusion h
      · rw [hw] at h
        have : shapeErr = singularErr := Except.error.inj h
        exact absurd this (by decide)
    · intro hdet
      simp [resample_from_to, tryInverse4, hdet]
  · intro hdet
    exact ⟨mul_inv4 _ hdet, inv4_mul _ hdet, hred hdet⟩

/-- C5 (witness): the identity affine is invertible, so the singular error
is not raised and the compound transform is its inverse times the output
affine. -/
theorem claim_C5_witness :
    det4 id4 ≠ 0 ∧
    (mul4 id4 (inv4 id4) = id4 ∧
     mul4 (inv4 id4) id4 = id4 ∧
     resample_from_to (U := ℚ) id ⟨1, 1, 1, [7]⟩ id4 (1, 1, 1) id4
         (.nearestNeighbor ⟨.Constant, 0⟩) =
       ((SamplerV.nearestNeighbor ⟨.Constant, (0:ℚ)⟩).sample id ⟨1, 1, 1, [7]⟩
         (apply_affine (mul4 (inv4 id4) id4) (enum3Coords (1, 1, 1))) (1, 1, 1)).2) :=
  have hdet : det4 id4 ≠ 0 := by norm_num [det4, det3, id4]
  ⟨hdet, (claim_C5 id (.nearestNeighbor ⟨.Constant, 0⟩) ⟨1, 1, 1, [7]⟩ id4
    (1, 1, 1) id4).2 hdet⟩

/-- The `Nearest` clamp fixes an in-bounds integer coordinate. -/
theorem clampPt_int {U : Type} (im : Vol3 U) {i j k : ℕ}
    (hi : i < im.s0) (hj : j < im.s1) (hk : k < im.s2) :
    clampPt im ⟨(i : ℚ), (j : ℚ), (k : ℚ)⟩ = ⟨(i : ℚ), (j : ℚ), (k : ℚ)⟩ := by
  have bx : (i : ℚ) ≤ ((im.s0 - 1 : ℕ) : ℚ) := by
    have : i ≤ im.s0 - 1 := by omega
    exact_mod_cast this
  have by' : (j : ℚ) ≤ ((im.s1 - 1 : ℕ) : ℚ) := by
    have : j ≤ im.s1 - 1 := by omega
    exact_mod_cast this
  have bz : (k : ℚ) ≤ ((im.s2 - 1 : ℕ) : ℚ) := by
    have : k ≤ im.s2 - 1 := by omega
    exact_mod_cast this
  simp [clampPt, clampQ_eq_self (Nat.cast_nonneg i) bx,
    clampQ_eq_self (Nat.cast_nonneg j) by',
    clampQ_eq_self (Nat.cast_nonneg k) bz]

/-- NearestNeighbor at an exact in-bounds integer coordinate reads the
row-major element there. -/
theorem nearestNeighborVal_int {U : Type} (cfg : SamplerCfg U) (im : Vol3 U)
    {i j k : ℕ} (hi : i < im.s0) (hj : j < im.s1) (hk : k < im.s2) :
    nearestNeighborVal cfg im ⟨(i : ℚ), (j : ℚ), (k : ℚ)⟩ =
      (im.data[(i * im.s1 + j) * im.s2 + k]?).getD cfg.cval := by
  have hcx : ((⌈((i : ℕ) : ℚ)⌉ : ℚ)) = ((i : ℕ) : ℚ) := by
    rw [Int.ceil_natCast]; push_cast; rfl
  have hcy : ((⌈((j : ℕ) : ℚ)⌉ : ℚ)) = ((j : ℕ) : ℚ) := by
    rw [Int.ceil_natCast]; push_cast; rfl
  have hcz : ((⌈((k : ℕ) : ℚ)⌉ : ℚ)) = ((k : ℕ) : ℚ) := by
    rw [Int.ceil_natCast]; push_cast; rfl
  have hB2 : ¬ (((i : ℕ) : ℚ) < 0 ∨ ((j : ℕ) : ℚ) < 0 ∨ ((k : ℕ) : ℚ) < 0 ∨
      ((i : ℕ) : ℚ) > (im.s0 : ℚ) ∨ ((j : ℕ) : ℚ) > (im.s1 : ℚ) ∨
      ((k : ℕ) : ℚ) > (im.s2 : ℚ)) := by
    push_neg
    refine ⟨Nat.cast_nonneg i, Nat.cast_nonneg j, Nat.cast_nonneg k, ?_, ?_, ?_⟩ <;>
      exact_mod_cast Nat.le_of_lt (by omega)
  simp only [nearestNeighborVal, hcx, hcy, hcz, ratAsNat_natCast]
  rw [if_neg hB2, get_val, getIdx_in im hi hj hk]

/-- C4 (confirmed): identity resampling.  For every rank-3 volume with
positive extents and well-formed data, and every invertible affine,
`resample_from_to` onto the volume's own shape and affine with a
NearestNeighbor sampler in `Nearest` mode returns the volume unchanged:
the compound transform collapses to the identity, every mapped coordinate
is an exact integer index, and the raster enumeration agrees with the
row-major reshape. -/
theorem claim_C4 (cfg : SamplerCfg ℚ) (im : Vol3 ℚ) (A : Mat4)
    (hmode : cfg.mode = .Nearest)
    (h0 : 1 ≤ im.s0) (h1 : 1 ≤ im.s1) (h2 : 1 ≤ im.s2)
    (hlen : im.data.length = im.s0 * im.s1 * im.s2)
    (hdet : det4 A ≠ 0) :
    resample_from_to id im A (im.s0, im.s1, im.s2) A (.nearestNeighbor cfg) =
      .ok im := by
  have hcoords : apply_sampling_mode cfg im (enum3Coords (im.s0, im.s1, im.s2)) =
      enum3Coords (im.s0, im.s1, im.s2) := by
    simp only [apply_sampling_mode, hmode, enum3Coords, List.map_map]
    refine List.map_congr_left ?_
    intro t ht
    obtain ⟨hi, hj, hk⟩ := mem_enum3.mp ht
    exact clampPt_int im hi hj hk
  have hvalues : (enum3Coords (im.s0, im.s1, im.s2)).map (nearestNeighborVal cfg im) =
      im.data := by
    rw [enum3Coords, List.map_map]
    rw [List.map_congr_left (fun (t : ℕ × ℕ × ℕ) ht => by
      obtain ⟨hi, hj, hk⟩ := mem_enum3.mp ht
      show (nearestNeighborVal cfg im ∘ fun t : ℕ × ℕ × ℕ =>
          (⟨(t.1 : ℚ), (t.2.1 : ℚ), (t.2.2 : ℚ)⟩ : Vec3)) t =
        (im.data[(t.1 * im.s1 + t.2.1) * im.s2 + t.2.2]?).getD cfg.cval
      exact nearestNeighborVal_int cfg im hi hj hk)]
    have hcomp : (enum3 im.s0 im.s1 im.s2).map
        (fun t : ℕ × ℕ × ℕ => (im.data[(t.1 * im.s1 + t.2.1) * im.s2 + t.2.2]?).getD cfg.cval) =
        ((enum3 im.s0 im.s1 im.s2).map
          (fun t : ℕ × ℕ × ℕ => (t.1 * im.s1 + t.2.1) * im.s2 + t.2.2)).map
          (fun n => (im.data[n]?).getD cfg.cval) := by
      rw [List.map_map]
      rfl
    rw [hcomp, enum3_map_flat, ← hlen, map_getD_range]
  have hred : resample_from_to id im A (im.s0, im.s1, im.s2) A (.nearestNeighbor cfg) =
      ((SamplerV.nearestNeighbor cfg).sample id im
        (apply_affine (mul4 (inv4 A) A) (enum3Coords (im.s0, im.s1, im.s2)))
        (im.s0, im.s1, im.s2)).2 := by
    simp [resample_from_to, tryInverse4, hdet]
  rw [hred, inv4_mul A hdet, apply_affine_id4]
  simp only [SamplerV.sample, nearestNeighborSample]
  rw [hcoords, hvalues, if_pos hlen]

/-- C4 (witness): identity resampling of a concrete `1×2×1` volume. -/
theorem claim_C4_witness :
    resample_from_to id (⟨1, 2, 1, [3, 8]⟩ : Vol3 ℚ) id4 (1, 2, 1) id4
      (.nearestNeighbor ⟨.Nearest, 0⟩) = .ok ⟨1, 2, 1, [3, 8]⟩ :=
  claim_C4 ⟨.Nearest, 0⟩ ⟨1, 2, 1, [3, 8]⟩ id4 rfl (by decide) (by decide) (by decide)
    (by decide) (by norm_num [det4, det3, id4])

/-- C1 (counterexample): grid inference performs no validation at all.
With the requested voxel size `(-1, 1, 1)` — non-positive on the first
axis — `resample_to_output` on a `1×1×1` volume under the identity affine
returns a result (the unchanged volume with the derived affine
`diag(-1,1,1)`), not an `InvalidParameterError`; no such error exists in
the code. -/
theorem claim_C1_cx :
    (⟨-1, 1, 1⟩ : Vec3).x ≤ 0 ∧
    resample_to_output (U := ℚ) id ⟨[1, 1, 1], [7]⟩ id4 ⟨-1, 1, 1⟩
        (.nearestNeighbor ⟨.Constant, 0⟩) =
      .ok (⟨1, 1, 1, [7]⟩, ⟨-1, 0, 0, 0, 0, 1, 0, 0, 0, 0, 1, 0, 0, 0, 0, 1⟩) := by
  constructor
  · norm_num
  · have hsan : sanitize_im_shape (U := ℚ) ⟨[1, 1, 1], [7]⟩ = .ok ⟨1, 1, 1, [7]⟩ := rfl
    have hcor : (get_corners (1, 1, 1)).map
        (fun c : ℕ × ℕ × ℕ => (⟨(c.1 : ℚ), (c.2.1 : ℚ), (c.2.2 : ℚ)⟩ : Vec3)) =
        [⟨0, 0, 0⟩, ⟨0, 0, 0⟩, ⟨0, 0, 0⟩, ⟨0, 0, 0⟩,
         ⟨0, 0, 0⟩, ⟨0, 0, 0⟩, ⟨0, 0, 0⟩, ⟨0, 0, 0⟩] := by
      norm_num [get_corners]
    have hvox : vox2out_vox (1, 1, 1) id4 ⟨-1, 1, 1⟩ =
        ((1, 1, 1), ⟨-1, 0, 0, 0, 0, 1, 0, 0, 0, 0, 1, 0, 0, 0, 0, 1⟩) := by
      rw [vox2out_vox, hcor, apply_affine_id4]
      norm_num [colMin, colMax, ratAsNat, aff_tra_to_afftra, Prod.ext_iff]
    have hinv : inv4 id4 = id4 := by
      norm_num [inv4, det4, det3, adj4, smul4, id4]
    have htry : tryInverse4 id4 = some id4 := by
      rw [tryInverse4, if_neg (by norm_num [det4, det3, id4]), hinv]
    have hmul : mul4 id4 (⟨-1, 0, 0, 0, 0, 1, 0, 0, 0, 0, 1, 0, 0, 0, 0, 1⟩ : Mat4) =
        ⟨-1, 0, 0, 0, 0, 1, 0, 0, 0, 0, 1, 0, 0, 0, 0, 1⟩ := by
      norm_num [mul4, id4]
    have hcoords : enum3Coords (1, 1, 1) = [⟨0, 0, 0⟩] := by
      norm_num [enum3Coords, enum3, show List.range 1 = [0] from rfl]
    have happ : apply_affine (⟨-1, 0, 0, 0, 0, 1, 0, 0, 0, 0, 1, 0, 0, 0, 0, 1⟩ : Mat4)
        [⟨0, 0, 0⟩] = [⟨0, 0, 0⟩] := by
      norm_num [apply_affine, afftra_to_aff_tra]
    have hval : nearestNeighborVal (U := ℚ) ⟨.Constant, 0⟩ ⟨1, 1, 1, [7]⟩ ⟨0, 0, 0⟩ = 7 := by
      norm_num [nearestNeighborVal, get_val, Vol3.getIdx, ratAsNat]
    have hsam : nearestNeighborSample (U := ℚ) ⟨.Constant, 0⟩ ⟨1, 1, 1, [7]⟩
        [⟨0, 0, 0⟩] (1, 1, 1) = ([⟨0, 0, 0⟩], .ok ⟨1, 1, 1, [7]⟩) := by
      rw [nearestNeighborSample]
      simp only [apply_sampling_mode, List.map_cons, List.map_nil, hval]
      norm_num
    have hfrom : resample_from_to (U := ℚ) id ⟨1, 1, 1, [7]⟩ id4 (1, 1, 1)
        (⟨-1, 0, 0, 0, 0, 1, 0, 0, 0, 0, 1, 0, 0, 0, 0, 1⟩ : Mat4)
        (.nearestNeighbor ⟨.Constant, 0⟩) = .ok ⟨1, 1, 1, [7]⟩ := by
      rw [resample_from_to]
      rw [htry]
      simp only [hmul, hcoords, happ, SamplerV.sample, hsam]
    rw [resample_to_output]
    rw [hsan]
    simp only [hvox, hfrom]

/-- C1 (amended): neither `vox2out_vox` nor `resample_to_output` validates
the requested voxel sizes or the inferred extents: `vox2out_vox` is a total
function with no error channel, and the only errors `resample_to_output`
can ever return are the rank error of `sanitize_im_shape` and the
singular-affine error of `resample_from_to` — there is no
`InvalidParameterError` and no `DegenerateGridError`.  A non-positive
voxel size or non-positive inferred extent silently yields a (possibly
meaningless) grid instead. -/
theorem claim_C1 {U : Type} [CommRing U] (castTU : ℚ → U) (v : ArrayD U)
    (in_affine : Mat4) (voxel_sizes : Vec3) (s : SamplerV U) :
    (∃ r, resample_to_output castTU v in_affine voxel_sizes s = .ok r) ∨
    resample_to_output castTU v in_affine voxel_sizes s = .error "invalid shape" ∨
    resample_to_output castTU v in_affine voxel_sizes s = .error singularErr := by
  cases hsan : sanitize_im_shape (U := U) v with
  | error e =>
    have he := sanitize_im_shape_error v e hsan
    subst he
    refine Or.inr (Or.inl ?_)
    simp [resample_to_output, hsan]
  | ok im =>
    by_cases hdet : det4 in_affine = 0
    · refine Or.inr (Or.inr ?_)
      simp [resample_to_output, hsan, resample_from_to, tryInverse4, hdet]
    · set vo := vox2out_vox (im.s0, im.s1, im.s2) in_affine voxel_sizes with hvo
      have hcl : (apply_affine (mul4 (inv4 in_affine) vo.2) (enum3Coords vo.1)).length
          = vo.1.1 * vo.1.2.1 * vo.1.2.2 := by
        rw [apply_affine_length, enum3Coords_length]
      obtain ⟨w, hw⟩ := sample_snd_isOk castTU s im
        (apply_affine (mul4 (inv4 in_affine) vo.2) (enum3Coords vo.1)) vo.1 hcl
      refine Or.inl ⟨(w, vo.2), ?_⟩
      simp [resample_to_output, hsan, resample_from_to, tryInverse4, hdet, ← hvo, hw]

/-- C10 (witness): under `Nearest`, an out-of-range coordinate is left
clamped in the caller's matrix after the call. -/
theorem claim_C10_witness :
    ((SamplerV.nearestNeighbor ⟨.Nearest, (0:ℚ)⟩).sample id ⟨1, 1, 1, [7]⟩
        [⟨5, -3, 0⟩] (1, 1, 1)).1 =
      [⟨5, -3, 0⟩].map (clampPt (⟨1, 1, 1, [7]⟩ : Vol3 ℚ)) :=
  ((claim_C10 id (.nearestNeighbor ⟨.Nearest, 0⟩) ⟨1, 1, 1, [7]⟩
      [⟨5, -3, 0⟩] (1, 1, 1)).2.2 rfl).1

end NP
